import Mathlib

/-!
Verification of the seedorm document-store core: a shallow embedding of the
query/filter operator evaluator (`src/query/operators.ts`, `src/query/filter.ts`),
the field indexer (`src/adapters/json/indexer.ts`), the file persistence engine
(`src/adapters/json/file-engine.ts`), the JSON document-store adapter
(`src/adapters/json/json-adapter.ts`), the schema normalizer
(`src/model/schema.ts`) and the belongsTo branch of the relation resolver
(`src/model/model.ts`), together with proofs and refutations of the
specification's claims about them.

JavaScript runtime values are modelled by the inductive type `Value`
(numbers as `Int`; the float-only corner cases NaN/Infinity play no role in
the properties below).  Documents and plain objects are association lists in
key-insertion order, matching JS object key ordering.  Fallible code returns
`Except`.  Asynchronous file writes are modelled by their sequential effect on
an explicit engine state, which is accurate here because every write in the
source is funneled through one serialized queue.
-/

namespace Seedorm

/-- A JavaScript runtime value as handled by the store. -/
inductive Value where
  | vUndefinedVal : Value
  | vNull : Value
  | vBool : Bool → Value
  | vNum : Int → Value
  | vStr : String → Value
  | vArr : List Value → Value
  | vDoc : List (String × Value) → Value
  deriving Repr

mutual

/-- Structural equality of values.  This models JS `===` (and the
SameValueZero comparison used by `Map`/`Set`/`Array.includes`) on primitive
values, which are the only values the store compares in the code under
study. -/
def veq : Value → Value → Bool
  | .vUndefinedVal, .vUndefinedVal => true
  | .vNull, .vNull => true
  | .vBool a, .vBool b => a == b
  | .vNum a, .vNum b => a == b
  | .vStr a, .vStr b => a == b
  | .vArr xs, .vArr ys => veqList xs ys
  | .vDoc xs, .vDoc ys => veqFields xs ys
  | _, _ => false

def veqList : List Value → List Value → Bool
  | [], [] => true
  | x :: xs, y :: ys => veq x y && veqList xs ys
  | _, _ => false

def veqFields : List (String × Value) → List (String × Value) → Bool
  | [], [] => true
  | (k, v) :: xs, (l, w) :: ys => k == l && veq v w && veqFields xs ys
  | _, _ => false

end

/-- Equality infrastructure for `Value` (needed before anything can compare
values propositionally or derive decidable equality for the store's state
types): `veq` decides propositional equality. -/
theorem veq_eq_all : ∀ n : Nat,
    (∀ a b : Value, sizeOf a ≤ n → (veq a b = true ↔ a = b)) ∧
    (∀ xs ys : List Value, sizeOf xs ≤ n → (veqList xs ys = true ↔ xs = ys)) ∧
    (∀ xs ys : List (String × Value), sizeOf xs ≤ n → (veqFields xs ys = true ↔ xs = ys)) := by
  intro n
  induction n with
  | zero =>
    refine ⟨?_, ?_, ?_⟩
    · intro a b ha; exfalso; cases a <;> simp at ha
    · intro xs ys ha; exfalso; cases xs <;> simp at ha
    · intro xs ys ha; exfalso; cases xs <;> simp at ha
  | succ n ih =>
    obtain ⟨ihV, ihL, ihF⟩ := ih
    refine ⟨?_, ?_, ?_⟩
    · intro a b ha
      cases a <;> cases b <;> simp_all [veq]
      case vArr.vArr xs ys =>
        exact ihL xs ys (by omega)
      case vDoc.vDoc xs ys =>
        exact ihF xs ys (by omega)
    · intro xs ys ha
      cases xs <;> cases ys <;> simp_all [veqList]
      case cons.cons x xs y ys =>
        have h1 := ihV x y (by omega)
        have h2 := ihL xs ys (by omega)
        rw [h1, h2]
    · intro xs ys ha
      cases xs <;> cases ys <;> simp_all [veqFields]
      case cons.cons p xs q ys =>
        obtain ⟨k, v⟩ := p
        obtain ⟨l, w⟩ := q
        have h1 := ihV v w (by simp at ha; omega)
        have h2 := ihF xs ys (by simp at ha; omega)
        simp [veqFields, h1, h2]

theorem veq_eq (a b : Value) : veq a b = true ↔ a = b :=
  (veq_eq_all (sizeOf a)).1 a b le_rfl

instance : DecidableEq Value := fun a b => decidable_of_iff _ (veq_eq a b)

theorem veq_eq_decide (a b : Value) : veq a b = decide (a = b) := by
  by_cases h : a = b
  · simp [h, (veq_eq b b).2 rfl]
  · simp [h]
    exact Bool.eq_false_iff.mpr (fun hc => h ((veq_eq a b).1 hc))

/-- A document / plain JS object: fields in key-insertion order. -/
abbrev Doc := List (String × Value)

/-- Property read `obj[k]`: an absent key reads as `undefined`. -/
def getField (d : Doc) (k : String) : Value :=
  match d.find? (fun p => p.1 == k) with
  | some p => p.2
  | none => .vUndefinedVal

/-- Whether the object has an own property `k` (even one holding `undefined`). -/
def hasField (d : Doc) (k : String) : Bool :=
  (d.find? (fun p => p.1 == k)).isSome

/-- Property write `obj[k] = v`: updates in place (keeping the key's position)
or appends a new key, exactly as JS objects order their keys. -/
def setField (d : Doc) (k : String) (v : Value) : Doc :=
  match d with
  | [] => [(k, v)]
  | (k', v') :: rest => if k' == k then (k', v) :: rest else (k', v') :: setField rest k v

/-- JS truthiness of a value (`filter(Boolean)`, `if (x)` tests). -/
def truthy : Value → Bool
  | .vUndefinedVal => false
  | .vNull => false
  | .vBool b => b
  | .vNum n => n != 0
  | .vStr s => s != ""
  | .vArr _ => true
  | .vDoc _ => true

/-- `val === undefined || val === null`, the check the indexer and `$exists`
perform. -/
def isNullish : Value → Bool
  | .vUndefinedVal => true
  | .vNull => true
  | _ => false

/-! ## Operator evaluator — `src/query/operators.ts` -/

/-- `$eq`: strict equality. -/
def opEq (val op : Value) : Bool := veq val op

/-- `$ne`: strict inequality. -/
def opNe (val op : Value) : Bool := !veq val op

/-- `$gt`: number/number or string/string comparison, `false` otherwise. -/
def opGt : Value → Value → Bool
  | .vNum a, .vNum b => decide (a > b)
  | .vStr a, .vStr b => decide (a > b)
  | _, _ => false

/-- `$gte`. -/
def opGte : Value → Value → Bool
  | .vNum a, .vNum b => decide (a ≥ b)
  | .vStr a, .vStr b => decide (a ≥ b)
  | _, _ => false

/-- `$lt`. -/
def opLt : Value → Value → Bool
  | .vNum a, .vNum b => decide (a < b)
  | .vStr a, .vStr b => decide (a < b)
  | _, _ => false

/-- `$lte`. -/
def opLte : Value → Value → Bool
  | .vNum a, .vNum b => decide (a ≤ b)
  | .vStr a, .vStr b => decide (a ≤ b)
  | _, _ => false

/-- `$in`: operand must be an array and contain the value. -/
def opIn (val op : Value) : Bool :=
  match op with
  | .vArr xs => xs.any (fun x => veq x val)
  | _ => false

/-- `$nin`: `true` when the operand is not an array, else non-membership. -/
def opNin (val op : Value) : Bool :=
  match op with
  | .vArr xs => !xs.any (fun x => veq x val)
  | _ => true

/-- A JS regex line terminator (LF, CR, LINE SEPARATOR, PARAGRAPH
SEPARATOR): without the dotAll flag, `.` — and hence the `%`/`_`
translations of `$like` — never matches one of these. -/
def isLineTerm (c : Char) : Bool :=
  c == '\n' || c == '\r' || c == '\u2028' || c == '\u2029'

/-- Try a matcher `f` on the suffixes of `val` reachable by consuming
non-line-terminator characters — exactly what the regex fragment `.*`
(no dotAll flag) followed by the rest of the pattern does. -/
def anySuffix (f : List Char → Bool) : List Char → Bool
  | [] => f []
  | c :: vs => f (c :: vs) || (!isLineTerm c && anySuffix f vs)

/-- The language of the regex the source builds for `$like`: the pattern is
regex-escaped, then `%` becomes `.*` and `_` becomes `.`, anchored with
`^...$` and matched with the `i` flag (and no dotAll flag).  So `%` matches
any run of non-line-terminator characters, `_` matches exactly one
non-line-terminator character, and every other pattern character matches
itself case-insensitively; the match covers the whole value.
Case-insensitivity is modelled as ASCII `Char.toLower` folding on both
characters, which coincides with the JS `i`-flag canonicalization on ASCII
strings; the flag's folding of non-ASCII simple-case pairs is outside this
model. -/
def likeMatches : List Char → List Char → Bool
  | [], val => val.isEmpty
  | p :: ps, val =>
    if p = '%' then anySuffix (likeMatches ps) val
    else if p = '_' then
      match val with
      | [] => false
      | c :: vs => !isLineTerm c && likeMatches ps vs
    else
      match val with
      | [] => false
      | c :: vs => (p.toLower == c.toLower) && likeMatches ps vs

/-- `$like`: both operands must be strings, else `false`. -/
def opLike (val op : Value) : Bool :=
  match val, op with
  | .vStr v, .vStr p => likeMatches p.data v.data
  | _, _ => false

/-- `$exists`: `op ? exists : !exists` with `exists = val !== undefined && val !== null`. -/
def opExists (val op : Value) : Bool :=
  let ex := !(isNullish val)
  if truthy op then ex else !ex

/-- `applyOperator(key, fieldValue, operand)`: dispatch on the operator name,
`Unknown operator` error for an unrecognized key. -/
def applyOperator (key : String) (fieldValue operand : Value) : Except String Bool :=
  if key == "$eq" then .ok (opEq fieldValue operand)
  else if key == "$ne" then .ok (opNe fieldValue operand)
  else if key == "$gt" then .ok (opGt fieldValue operand)
  else if key == "$gte" then .ok (opGte fieldValue operand)
  else if key == "$lt" then .ok (opLt fieldValue operand)
  else if key == "$lte" then .ok (opLte fieldValue operand)
  else if key == "$in" then .ok (opIn fieldValue operand)
  else if key == "$nin" then .ok (opNin fieldValue operand)
  else if key == "$like" then .ok (opLike fieldValue operand)
  else if key == "$exists" then .ok (opExists fieldValue operand)
  else .error ("Unknown operator: " ++ key)

/-- `key.startsWith("$")`: a one-character prefix test, written out on the
character list so that it evaluates inside the kernel. -/
def startsWithDollar (s : String) : Bool :=
  match s.data with
  | [] => false
  | c :: _ => c == '$'

/-- `isOperatorObject`: a non-null, non-array object one of whose keys starts
with `$`. -/
def isOperatorObject : Value → Bool
  | .vDoc fields => fields.any (fun p => startsWithDollar p.1)
  | _ => false

/-! ## Filter / count engine — `src/query/filter.ts` -/

/-- A filter: field name → condition (a bare value or an operator object). -/
abbrev Filter := List (String × Value)

/-- The inner loop of `matchesFilter` over one condition's operator entries:
all must hold; an unknown operator propagates as an error. -/
def applyOps (value : Value) : List (String × Value) → Except String Bool
  | [] => .ok true
  | (op, operand) :: rest => do
    let b ← applyOperator op value operand
    if b then applyOps value rest else pure false

/-- One field's condition: an operator object applies all of its operators,
any other condition is shorthand for `$eq`. -/
def matchesCondition (value condition : Value) : Except String Bool :=
  if isOperatorObject condition then
    match condition with
    | .vDoc ops => applyOps value ops
    | _ => .ok (veq value condition)
  else .ok (veq value condition)

/-- `matchesFilter(doc, filter)`: every field's condition must match. -/
def matchesFilter (doc : Doc) (filter : Filter) : Except String Bool :=
  match filter with
  | [] => .ok true
  | (field, condition) :: rest => do
    let b ← matchesCondition (getField doc field) condition
    if b then matchesFilter doc rest else pure false

/-- `Array.prototype.filter` with a possibly-throwing predicate: the first
error propagates. -/
def filterE (p : Doc → Except String Bool) : List Doc → Except String (List Doc)
  | [] => .ok []
  | d :: ds => do
    let b ← p d
    let rest ← filterE p ds
    pure (if b then d :: rest else rest)

/-- `FindOptions` as consumed by `applyFindOptions`.  The `sort` option is
omitted from the model: every property studied below runs with `sort`
unset, and the filter → sort → offset → limit pipeline leaves the other
stages untouched when it is. -/
structure FindOptions where
  filter : Option Filter
  offset : Option Nat
  limit : Option Nat
  deriving Repr, DecidableEq

/-- The find options `{ filter: { f: { $in: vals } } }` used by the
relation resolver's batched fetches. -/
def inQuery (f : String) (vals : List Value) : FindOptions :=
  { filter := some [(f, .vDoc [("$in", .vArr vals)])], offset := none, limit := none }

/-- `applyFindOptions(docs, options)`: filter, then offset (skipped when the
JS value is falsy, i.e. `0` or absent), then limit. -/
def applyFindOptions (docs : List Doc) (o : FindOptions) : Except String (List Doc) := do
  let r ← match o.filter with
    | some f => filterE (fun d => matchesFilter d f) docs
    | none => pure docs
  let r := match o.offset with
    | some n => if n != 0 then r.drop n else r
    | none => r
  let r := match o.limit with
    | some n => r.take n
    | none => r
  pure r

/-- `countWithFilter(docs, filter?)`: length of the docs, filtered when a
filter is given. -/
def countWithFilter (docs : List Doc) (filter : Option Filter) : Except String Nat :=
  match filter with
  | none => .ok docs.length
  | some f => do
    let l ← filterE (fun d => matchesFilter d f) docs
    pure l.length

/-! ## Association maps

`Map` objects keyed by values (the indexer, the id→doc maps in `populate`)
are modelled as association lists in key-insertion order: `get` finds the
first matching key, `set` replaces in place or appends — exactly a JS `Map`'s
observable behaviour.  Key comparison uses `veq` (SameValueZero on the
primitive keys the code uses). -/

/-- `Map.get`. -/
def vmapLookup {α : Type} (m : List (Value × α)) (k : Value) : Option α :=
  match m.find? (fun p => veq p.1 k) with
  | some p => some p.2
  | none => none

/-- `Map.set`. -/
def vmapSet {α : Type} (m : List (Value × α)) (k : Value) (v : α) : List (Value × α) :=
  match m with
  | [] => [(k, v)]
  | (k', v') :: rest => if veq k' k then (k', v) :: rest else (k', v') :: vmapSet rest k v

/-- `Map.get` for string-keyed maps (collections, files). -/
def alistLookup {α : Type} (m : List (String × α)) (k : String) : Option α :=
  match m.find? (fun p => p.1 == k) with
  | some p => some p.2
  | none => none

/-- `Map.set` for string-keyed maps. -/
def alistSet {α : Type} (m : List (String × α)) (k : String) (v : α) : List (String × α) :=
  match m with
  | [] => [(k, v)]
  | (k', v') :: rest => if k' == k then (k', v) :: rest else (k', v') :: alistSet rest k v

/-- `[...new Set(xs)]`: deduplicate keeping first occurrences. -/
def dedupVeq (xs : List Value) : List Value :=
  xs.foldl (fun acc x => if acc.any (fun y => veq y x) then acc else acc ++ [x]) []

/-- `Set.add` for the id sets of the indexer. -/
def setAdd (s : List Value) (id : Value) : List Value :=
  if s.any (fun x => veq x id) then s else s ++ [id]

/-- `Set.delete`. -/
def setDelete (s : List Value) (id : Value) : List Value :=
  s.eraseP (fun x => veq x id)

/-! ## Field indexer — `src/adapters/json/indexer.ts` -/

/-- `Map<unknown, Set<string>>`: field value → ids of the documents holding
it (ids stored as the runtime value of `doc.id`). -/
abbrev IdxMap := List (Value × List Value)

/-- One `FieldIndex` record of the indexer. -/
structure FieldIndex where
  field : String
  unique : Bool
  map : IdxMap
  deriving Repr, DecidableEq

/-- `if (!map.has(val)) map.set(val, new Set()); map.get(val)!.add(id)`. -/
def mapAddId (m : IdxMap) (val id : Value) : IdxMap :=
  let m1 := match vmapLookup m val with
    | some _ => m
    | none => vmapSet m val []
  let s := (vmapLookup m1 val).getD []
  vmapSet m1 val (setAdd s id)

/-- `idx.map.has(val) && idx.map.get(val)!.size > 0`. -/
def hasNonEmptyAt (idx : FieldIndex) (val : Value) : Bool :=
  match vmapLookup idx.map val with
  | some s => decide (0 < s.length)
  | none => false

/-- Payload of a `UniqueConstraintError`. -/
structure UniqueErr where
  collection : String
  field : String
  value : Value
  deriving Repr, DecidableEq

/-- `setupIndex`: build a field's index from a full scan, skipping documents
whose value on the field is nullish. -/
def setupIndex (field : String) (unique : Bool) (docs : List Doc) : FieldIndex :=
  { field := field, unique := unique,
    map := docs.foldl (fun m d =>
      let val := getField d field
      if isNullish val then m else mapAddId m val (getField d "id")) [] }

/-- `onInsert` over one collection's field indexes, in `Map` insertion order.
Returns the updated indexes and the error, if any.  The loop mutates each
index as it goes and does not roll back, so on a uniqueness violation the
indexes already processed keep their freshly-added entry, the violating index
and the ones after it are untouched. -/
def onInsertAux (collection : String) (doc : Doc) :
    List FieldIndex → List FieldIndex × Option UniqueErr
  | [] => ([], none)
  | idx :: rest =>
    let val := getField doc idx.field
    if isNullish val then
      (idx :: (onInsertAux collection doc rest).1, (onInsertAux collection doc rest).2)
    else if idx.unique && hasNonEmptyAt idx val then
      (idx :: rest, some ⟨collection, idx.field, val⟩)
    else
      ({ idx with map := mapAddId idx.map val (getField doc "id") } ::
        (onInsertAux collection doc rest).1,
       (onInsertAux collection doc rest).2)

/-- `onUpdate` over one collection's field indexes.  For each index whose
value changed it first removes the old value's entry
(`idx.map.get(oldVal)?.delete(oldDoc.id)`), and only then checks uniqueness
of the new value — so when that check throws, the removal has already
happened. -/
def onUpdateAux (collection : String) (oldDoc newDoc : Doc) :
    List FieldIndex → List FieldIndex × Option UniqueErr
  | [] => ([], none)
  | idx :: rest =>
    let oldVal := getField oldDoc idx.field
    let newVal := getField newDoc idx.field
    if veq oldVal newVal then
      (idx :: (onUpdateAux collection oldDoc newDoc rest).1,
       (onUpdateAux collection oldDoc newDoc rest).2)
    else
      let idx1 : FieldIndex :=
        if !isNullish oldVal then
          match vmapLookup idx.map oldVal with
          | some s => { idx with map := vmapSet idx.map oldVal (setDelete s (getField oldDoc "id")) }
          | none => idx
        else idx
      if !isNullish newVal then
        if idx1.unique && hasNonEmptyAt idx1 newVal then
          (idx1 :: rest, some ⟨collection, idx.field, newVal⟩)
        else
          ({ idx1 with map := mapAddId idx1.map newVal (getField newDoc "id") } ::
            (onUpdateAux collection oldDoc newDoc rest).1,
           (onUpdateAux collection oldDoc newDoc rest).2)
      else
        (idx1 :: (onUpdateAux collection oldDoc newDoc rest).1,
         (onUpdateAux collection oldDoc newDoc rest).2)

/-- The indexer's state: collection name → that collection's field indexes,
in insertion order. -/
abbrev Indexes := List (String × List FieldIndex)

/-- Replace a field's index in a collection's list (`colIndexes.set(field, idx)`). -/
def fieldsSet (l : List FieldIndex) (idx : FieldIndex) : List FieldIndex :=
  match l with
  | [] => [idx]
  | i :: rest => if i.field == idx.field then idx :: rest else i :: fieldsSet rest idx

/-- `Indexer.setupIndex(collection, field, unique, docs)`. -/
def indexerSetupIndex (ixs : Indexes) (collection field : String) (unique : Bool)
    (docs : List Doc) : Indexes :=
  let l := (alistLookup ixs collection).getD []
  alistSet ixs collection (fieldsSet l (setupIndex field unique docs))

/-- `Indexer.onInsert`: a no-op when the collection has no indexes. -/
def indexerOnInsert (ixs : Indexes) (collection : String) (doc : Doc) :
    Indexes × Option UniqueErr :=
  match alistLookup ixs collection with
  | none => (ixs, none)
  | some l =>
    (alistSet ixs collection (onInsertAux collection doc l).1, (onInsertAux collection doc l).2)

/-- `Indexer.onUpdate`: a no-op when the collection has no indexes. -/
def indexerOnUpdate (ixs : Indexes) (collection : String) (oldDoc newDoc : Doc) :
    Indexes × Option UniqueErr :=
  match alistLookup ixs collection with
  | none => (ixs, none)
  | some l =>
    (alistSet ixs collection (onUpdateAux collection oldDoc newDoc l).1,
     (onUpdateAux collection oldDoc newDoc l).2)

/-! ## File persistence engine — `src/adapters/json/file-engine.ts`

The engine keeps the collections in memory (`data`), a dirty set, and writes
each dirty collection to its own file on `flush`.  `markDirty(collection)`
takes the collection NAME; the dirty set therefore holds strings — or
`undefined` when a caller passes no argument, which is why its model element
type is `Option String`.  File contents are modelled as the parsed document
list (serialize/parse is the identity on the JSON-representable documents
used here).  The serialized write queue is modelled by the sequential effect
of each flush; the legacy single-file migration branch of `load` is omitted
(all claims run on the per-collection layout). -/

structure EngineState where
  data : List (String × List Doc)
  dirty : List (Option String)
  files : List (String × List Doc)
  deriving Repr, DecidableEq

/-- `Set.add` on the dirty set. -/
def dirtyAdd (d : List (Option String)) (c : Option String) : List (Option String) :=
  if d.contains c then d else d ++ [c]

/-- `load()` on a directory of per-collection files. -/
def engineLoad (files : List (String × List Doc)) : EngineState :=
  { data := files, dirty := [], files := files }

/-- `hasCollection`. -/
def engineHasCollection (e : EngineState) (name : String) : Bool :=
  (alistLookup e.data name).isSome

/-- `getCollection` for a collection known to exist (the adapter always
guards it with `hasCollection` or calls it right after `createCollection`,
so the create-if-absent side effect of the source never fires on the paths
modelled here). -/
def engineGetCollectionDocs (e : EngineState) (name : String) : List Doc :=
  (alistLookup e.data name).getD []

/-- Write back a collection's document array (in the source the adapter
mutates the array it got from `getCollection` in place). -/
def engineSetCollectionDocs (e : EngineState) (name : String) (docs : List Doc) : EngineState :=
  { e with data := alistSet e.data name docs }

/-- `createCollection(name)`: create the empty collection and mark it dirty,
a no-op when it already exists. -/
def engineCreateCollection (e : EngineState) (name : String) : EngineState :=
  if (alistLookup e.data name).isSome then e
  else { e with data := alistSet e.data name [], dirty := dirtyAdd e.dirty (some name) }

/-- `markDirty(collection)` — `collection` is `none` when the caller passes
no argument, as the JSON adapter does. -/
def engineMarkDirty (e : EngineState) (c : Option String) : EngineState :=
  { e with dirty := dirtyAdd e.dirty c }

/-- `flush()`: snapshot and clear the dirty set, then write each dirty
collection's current documents to its file.  A dirty entry that is
`undefined`, or names a collection absent from `data`, is skipped
(`this.data.get(collection)` yields `undefined` and the loop continues). -/
def engineFlush (e : EngineState) : EngineState :=
  let toWrite := e.dirty
  { e with
    dirty := [],
    files := toWrite.foldl (fun fs c =>
      match c with
      | none => fs
      | some n =>
        match alistLookup e.data n with
        | none => fs
        | some docs => alistSet fs n docs) e.files }

/-- `flushIfDirty()`: flush only when the dirty set is non-empty. -/
def engineFlushIfDirty (e : EngineState) : EngineState :=
  if e.dirty.isEmpty then e else engineFlush e

/-! ## Schema normalizer — `src/model/schema.ts` -/

/-- A full raw field definition (`FieldDefinition`); optional flags model the
`?`-fields (`default` is renamed `defaultVal`; a functional default is not
needed by the claims, so defaults are plain values here). -/
structure FieldDef where
  type : String
  required : Option Bool
  unique : Option Bool
  index : Option Bool
  defaultVal : Option Value
  minLength : Option Nat
  maxLength : Option Nat
  min : Option Int
  max : Option Int
  enum : Option (List Value)
  deriving Repr, DecidableEq

/-- A raw schema entry: shorthand bare type name, or a full definition. -/
inductive RawField where
  | shorthand (type : String)
  | full (d : FieldDef)
  deriving Repr, DecidableEq

/-- The canonical field form. -/
structure NormalizedField where
  type : String
  required : Bool
  unique : Bool
  index : Bool
  defaultVal : Option Value
  minLength : Option Nat
  maxLength : Option Nat
  min : Option Int
  max : Option Int
  enum : Option (List Value)
  deriving Repr, DecidableEq

abbrev RawSchema := List (String × RawField)
abbrev NormalizedSchema := List (String × NormalizedField)

/-- The body of `normalizeSchema`'s loop for one field: a shorthand gets
all-false flags; a full definition gets `required ?? false`,
`unique ?? false` and `index ?? unique ?? false`, and carries the optional
constraints through. -/
def normalizeField : RawField → NormalizedField
  | .shorthand t =>
    { type := t, required := false, unique := false, index := false,
      defaultVal := none, minLength := none, maxLength := none,
      min := none, max := none, enum := none }
  | .full d =>
    { type := d.type,
      required := d.required.getD false,
      unique := d.unique.getD false,
      index := d.index.getD (d.unique.getD false),
      defaultVal := d.defaultVal, minLength := d.minLength, maxLength := d.maxLength,
      min := d.min, max := d.max, enum := d.enum }

/-- `normalizeSchema(schema)`. -/
def normalizeSchema (s : RawSchema) : NormalizedSchema :=
  s.map (fun p => (p.1, normalizeField p.2))

/-! ## JSON document-store adapter — `src/adapters/json/json-adapter.ts`

NOTE on the insert/update/delete write path: the adapter calls
`this.engine.markDirty()` with NO argument, although `FileEngine.markDirty`
(the per-collection engine it instantiates) expects the collection name.
The model renders that call as `engineMarkDirty … none`. -/

structure AdapterState where
  engine : EngineState
  indexes : Indexes
  deriving Repr, DecidableEq

inductive AdapterErr where
  | collectionNotFound (collection : String)
  | uniqueConstraint (err : UniqueErr)
  | queryError (msg : String)
  deriving Repr, DecidableEq

/-- `connect()`: load the backing files. -/
def adapterConnect (files : List (String × List Doc)) : AdapterState :=
  { engine := engineLoad files, indexes := [] }

/-- `disconnect()`: `flushIfDirty`. -/
def adapterDisconnect (a : AdapterState) : AdapterState :=
  { a with engine := engineFlushIfDirty a.engine }

/-- `createCollection(collection, schema)`: create storage, set up an index
for every field marked `index` or `unique` (in schema order), flush. -/
def adapterCreateCollection (a : AdapterState) (collection : String)
    (schema : NormalizedSchema) : AdapterState :=
  let engine := engineCreateCollection a.engine collection
  let docs := engineGetCollectionDocs engine collection
  let indexes := schema.foldl (fun ixs p =>
    if p.2.index || p.2.unique then indexerSetupIndex ixs collection p.1 p.2.unique docs
    else ixs) a.indexes
  { engine := engineFlush engine, indexes := indexes }

/-- `insert(collection, doc)`: uniqueness checks through the indexer, append,
`markDirty()` (argument-less), flush.  The pair's first component is the
adapter state after the call, also when the call throws. -/
def adapterInsert (a : AdapterState) (collection : String) (doc : Doc) :
    AdapterState × Except AdapterErr Doc :=
  if !engineHasCollection a.engine collection then
    (a, .error (.collectionNotFound collection))
  else
    let docs := engineGetCollectionDocs a.engine collection
    let pr := indexerOnInsert a.indexes collection doc
    match pr.2 with
    | some u => ({ a with indexes := pr.1 }, .error (.uniqueConstraint u))
    | none =>
      let engine1 := engineSetCollectionDocs a.engine collection (docs ++ [doc])
      let engine2 := engineFlush (engineMarkDirty engine1 none)
      ({ engine := engine2, indexes := pr.1 }, .ok doc)

/-- `update(collection, id, data)`: null when the id is absent; otherwise
merge `{ ...oldDoc, ...data, id: oldDoc.id }`, run the indexer's update
checks on the merged document, commit, `markDirty()` (argument-less), flush. -/
def adapterUpdate (a : AdapterState) (collection id : String) (data : Doc) :
    AdapterState × Except AdapterErr (Option Doc) :=
  if !engineHasCollection a.engine collection then
    (a, .error (.collectionNotFound collection))
  else
    let docs := engineGetCollectionDocs a.engine collection
    match docs.findIdx? (fun d => veq (getField d "id") (.vStr id)) with
    | none => (a, .ok none)
    | some i =>
      match docs[i]? with
      | none => (a, .ok none)  -- unreachable: findIdx? returns an in-range index
      | some oldDoc =>
        let newDoc := setField (data.foldl (fun d p => setField d p.1 p.2) oldDoc)
          "id" (getField oldDoc "id")
        let pr := indexerOnUpdate a.indexes collection oldDoc newDoc
        match pr.2 with
        | some u => ({ a with indexes := pr.1 }, .error (.uniqueConstraint u))
        | none =>
          let engine1 := engineSetCollectionDocs a.engine collection (docs.set i newDoc)
          let engine2 := engineFlush (engineMarkDirty engine1 none)
          ({ engine := engine2, indexes := pr.1 }, .ok (some newDoc))

/-- `find(collection, options)`. -/
def adapterFind (a : AdapterState) (collection : String) (o : FindOptions) :
    Except AdapterErr (List Doc) :=
  if !engineHasCollection a.engine collection then
    .error (.collectionNotFound collection)
  else
    match applyFindOptions (engineGetCollectionDocs a.engine collection) o with
    | .ok l => .ok l
    | .error m => .error (.queryError m)

/-- `count(collection, filter?)`. -/
def adapterCount (a : AdapterState) (collection : String) (filter : Option Filter) :
    Except AdapterErr Nat :=
  if !engineHasCollection a.engine collection then
    .error (.collectionNotFound collection)
  else
    match countWithFilter (engineGetCollectionDocs a.engine collection) filter with
    | .ok n => .ok n
    | .error m => .error (.queryError m)

/-! ## Relation resolver, belongsTo branch — `src/model/model.ts`

`Model.populate`'s `BelongsTo` arm: collect the distinct truthy foreign-key
values of the parents; when none, attach `null` to every parent without
querying; otherwise fetch the related documents with one `$in` query on `id`,
build an id → document map, and attach `map.get(fk) ?? null` per parent.

The second component of the result records the filter of every `find` call
the resolver issued, so that "one batched query" / "no query at all" are part
of the model's observable behaviour. -/
def populateBelongsTo (a : AdapterState) (parents : List Doc)
    (relationName foreignKey relatedCollection : String) :
    Except AdapterErr (List Doc × List Filter) :=
  let fkValues := dedupVeq ((parents.map (fun d => getField d foreignKey)).filter truthy)
  if fkValues.length == 0 then
    .ok (parents.map (fun d => setField d relationName .vNull), [])
  else do
    let related ← adapterFind a relatedCollection (inQuery "id" fkValues)
    let m := related.foldl (fun m r => vmapSet m (getField r "id") r) ([] : List (Value × Doc))
    .ok (parents.map (fun d =>
      let fk := getField d foreignKey
      setField d relationName (match vmapLookup m fk with | some r => .vDoc r | none => .vNull)),
      [[("id", .vDoc [("$in", .vArr fkValues)])]])

/-! ## Specification-side definitions

These definitions follow the wording of the specification (not the code);
the theorems below compare the code models against them. -/

/-- The value is a JS number. -/
def isNum : Value → Bool
  | .vNum _ => true
  | _ => false

/-- The value is a JS string. -/
def isStr : Value → Bool
  | .vStr _ => true
  | _ => false

/-- The SQL-LIKE matching language as the claim originally words it: `%`
matches any run of characters (line terminators included) and `_` matches
any single character.  Kept to state the counterexample to the original
claim: the program's dotAll-less regex does not satisfy it. -/
def LikeSemAnyRun : List Char → List Char → Prop
  | [], val => val = []
  | p :: ps, val =>
    if p = '%' then ∃ v1 v2, val = v1 ++ v2 ∧ LikeSemAnyRun ps v2
    else if p = '_' then ∃ c vs, val = c :: vs ∧ LikeSemAnyRun ps vs
    else ∃ c vs, val = c :: vs ∧ p.toLower = c.toLower ∧ LikeSemAnyRun ps vs

/-- The SQL-LIKE matching language the source's regex actually recognizes:
`%` matches any run of non-line-terminator characters and `_` exactly one
non-line-terminator character (no dotAll flag), any other pattern character
matches itself case-insensitively (ASCII folding), and the whole value must
be consumed (fully anchored). -/
def LikeSem : List Char → List Char → Prop
  | [], val => val = []
  | p :: ps, val =>
    if p = '%' then
      ∃ v1 v2, val = v1 ++ v2 ∧ (∀ c ∈ v1, isLineTerm c = false) ∧ LikeSem ps v2
    else if p = '_' then ∃ c vs, val = c :: vs ∧ isLineTerm c = false ∧ LikeSem ps vs
    else ∃ c vs, val = c :: vs ∧ p.toLower = c.toLower ∧ LikeSem ps vs

/-- What the spec says a parent must receive from belongsTo resolution: the
related document whose id equals the parent's own foreign-key value, `null`
when there is none or when the parent carries no (truthy) foreign-key
value. -/
def belongsToExpected (relatedDocs : List Doc) (foreignKey : String) (p : Doc) : Value :=
  if truthy (getField p foreignKey) then
    match relatedDocs.find? (fun r => veq (getField r "id") (getField p foreignKey)) with
    | some r => .vDoc r
    | none => .vNull
  else .vNull

/-! ## Concrete scenarios used by the refutations and witnesses -/

/-- A raw definition with `unique: true` and `index` explicitly `false`. -/
def rawUniqueIndexFalse : FieldDef :=
  { type := "string", required := none, unique := some true, index := some false,
    defaultVal := none, minLength := none, maxLength := none,
    min := none, max := none, enum := none }

/-- A raw definition with `unique: true` and `index` left unspecified. -/
def rawUniqueNoIndex : FieldDef :=
  { type := "string", required := none, unique := some true, index := none,
    defaultVal := none, minLength := none, maxLength := none,
    min := none, max := none, enum := none }

/-- A schema with a single non-indexed field (`name: "string"` shorthand). -/
def schemaPlain : NormalizedSchema := normalizeSchema [("name", .shorthand "string")]

/-- The document inserted in the durability scenario. -/
def docAlice : Doc :=
  [("id", .vStr "u1"), ("name", .vStr "Alice"),
   ("createdAt", .vStr "2024-01-01T00:00:00.000Z"),
   ("updatedAt", .vStr "2024-01-01T00:00:00.000Z")]

/-- Durability scenario, first session: connect to an empty directory, create
the collection, insert one document. -/
def sessionOne : AdapterState :=
  (adapterInsert (adapterCreateCollection (adapterConnect []) "users" schemaPlain)
    "users" docAlice).1

/-- …then disconnect, and reconnect a fresh adapter against the files the
first session left behind, re-creating the collection as a caller would. -/
def sessionTwo : AdapterState :=
  adapterCreateCollection (adapterConnect (adapterDisconnect sessionOne).engine.files)
    "users" schemaPlain

/-- Two unique single-field indexes (fields `a` and `b`) over one existing
document `d1` with `a = "x"`, `b = "y"`. -/
def idxsTwoUnique : List FieldIndex :=
  [{ field := "a", unique := true, map := [(.vStr "x", [.vStr "d1"])] },
   { field := "b", unique := true, map := [(.vStr "y", [.vStr "d1"])] }]

/-- A document that is fresh on field `a` but collides with `d1` on field `b`. -/
def docCollideB : Doc := [("id", .vStr "d2"), ("a", .vStr "z"), ("b", .vStr "y")]

/-- Update-collision scenario: two documents with distinct unique `email`
values, and the matching index state. -/
def docEmailA : Doc := [("id", .vStr "1"), ("email", .vStr "a")]

def docEmailB : Doc := [("id", .vStr "2"), ("email", .vStr "b")]

def stateEmails : AdapterState :=
  { engine := { data := [("users", [docEmailA, docEmailB])], dirty := [],
                files := [("users", [docEmailA, docEmailB])] },
    indexes := [("users",
      [{ field := "email", unique := true,
         map := [(.vStr "a", [.vStr "1"]), (.vStr "b", [.vStr "2"])] }])] }

/-- The failed update: set document 1's email to document 2's value. -/
def collidingUpdate : AdapterState × Except AdapterErr (Option Doc) :=
  adapterUpdate stateEmails "users" "1" [("email", .vStr "b")]

/-- belongsTo scenario: one author, one post referencing it and one post with
no author. -/
def docAuthor : Doc := [("id", .vStr "a1"), ("name", .vStr "Ann")]

def docPostWithAuthor : Doc := [("id", .vStr "p1"), ("authorId", .vStr "a1")]

def docPostNoAuthor : Doc := [("id", .vStr "p2")]

def stateAuthors : AdapterState :=
  { engine := { data := [("authors", [docAuthor])], dirty := [],
                files := [("authors", [docAuthor])] },
    indexes := [] }

/-! # Theorems -/

/-- **C1**: refuted by the code — the round trip loses the inserted document.
`JsonAdapter.insert` calls `this.engine.markDirty()` with no argument although
`FileEngine.markDirty(collection)` expects the collection name, so only
`undefined` ever enters the dirty set and `flush` writes nothing for it.  In
the scenario: create `users`, insert one document (the live store then counts
1), disconnect; the backing file still holds the empty array written at
creation time, and a fresh adapter over the same files counts 0. -/
theorem C1_insert_lost_after_reload :
    adapterCount sessionOne "users" none = .ok 1 ∧
    (adapterDisconnect sessionOne).engine.files = [("users", [])] ∧
    adapterCount sessionTwo "users" none = .ok 0 :=
  ⟨rfl, rfl, rfl⟩

/-- **C2**: refuted by the code — a failed insert does NOT leave every
field's index map as it was.  With unique indexes on `a` and `b` and one
document `d1` (`a="x"`, `b="y"`), inserting `d2` (`a="z"`, `b="y"`) raises
the UniqueConstraintError on `b`, but field `a`'s map has already gained the
entry `"z" → {d2}` for the never-inserted document, and it is not rolled
back. -/
theorem C2_failed_insert_leaves_phantom_index_entry :
    (onInsertAux "users" docCollideB idxsTwoUnique).2 =
      some { collection := "users", field := "b", value := .vStr "y" } ∧
    (onInsertAux "users" docCollideB idxsTwoUnique).1 =
      [{ field := "a", unique := true,
         map := [(.vStr "x", [.vStr "d1"]), (.vStr "z", [.vStr "d2"])] },
       { field := "b", unique := true, map := [(.vStr "y", [.vStr "d1"])] }] ∧
    (onInsertAux "users" docCollideB idxsTwoUnique).1 ≠ idxsTwoUnique := by
  refine ⟨rfl, rfl, ?_⟩
  decide

/-- **C3**: refuted by the code — the colliding update does fail with a
UniqueConstraintError and leaves both stored documents intact, but NOT
before an index mutation: `onUpdate` removes the id from the old value's set
before checking the new value, so after the failed call `"a"`'s id set has
become empty (document 1 has no index entry at all any more). -/
theorem C3_failed_update_mutates_old_value_index :
    collidingUpdate.2 =
      .error (.uniqueConstraint { collection := "users", field := "email", value := .vStr "b" }) ∧
    engineGetCollectionDocs collidingUpdate.1.engine "users" = [docEmailA, docEmailB] ∧
    alistLookup collidingUpdate.1.indexes "users" =
      some [{ field := "email", unique := true,
              map := [(.vStr "a", []), (.vStr "b", [.vStr "2"])] }] ∧
    alistLookup collidingUpdate.1.indexes "users" ≠ alistLookup stateEmails.indexes "users" := by
  refine ⟨rfl, rfl, rfl, ?_⟩
  decide

/-- **C4** (counterexample): a raw definition that sets `unique: true` and
explicitly `index: false` normalizes to `unique = true, index = false` —
`index ?? unique ?? false` only falls back to `unique` when `index` is
absent, so the claimed invariant fails exactly in the claim's "explicitly
sets index to false" case. -/
theorem C4_counterexample :
    normalizeSchema [("email", .full rawUniqueIndexFalse)] =
    [("email",
      { type := "string", required := false, unique := true, index := false,
        defaultVal := none, minLength := none, maxLength := none,
        min := none, max := none, enum := none })] := rfl

/-- **C4** (amended): for every raw field definition that does not explicitly
set `index` (and every shorthand definition), the normalized field satisfies
unique ⇒ index: `index` defaults to `unique` only when left unspecified. -/
theorem C4_unique_implies_index_when_index_unspecified (s : RawSchema)
    (h : ∀ p ∈ s, ∀ d, p.2 = RawField.full d → d.index = none) :
    ∀ q ∈ normalizeSchema s, q.2.unique = true → q.2.index = true := by
  intro q hq hu
  simp only [normalizeSchema, List.mem_map] at hq
  obtain ⟨p, hp, rfl⟩ := hq
  cases hf : p.2 with
  | shorthand t => simp [normalizeField, hf] at hu
  | full d =>
    have hidx := h p hp d hf
    simp [normalizeField, hf, hidx] at hu ⊢
    exact hu

/-- Witness for the amended C4: a unique field with `index` unspecified is
normalized with `index = true`. -/
theorem C4_amended_witness :
    (normalizeField (.full rawUniqueNoIndex)).index = true :=
  C4_unique_implies_index_when_index_unspecified
    [("email", .full rawUniqueNoIndex)]
    (by intro p hp d hd; simp at hp; subst hp; cases hd; rfl)
    ("email", normalizeField (.full rawUniqueNoIndex))
    (by simp [normalizeSchema]) rfl

/-- **C7**: each of `$gt/$gte/$lt/$lte` returns `.ok` of the numeric
comparison on number/number, the lexicographic comparison on string/string
(Lean's `String` order is lexicographic by character), and `.ok false` on
every other type pairing — in particular the four operators never produce an
error. -/
theorem C7_comparison_operators_typed_total :
    (∀ a b : Int, applyOperator "$gt" (.vNum a) (.vNum b) = .ok (decide (a > b))) ∧
    (∀ s t : String, applyOperator "$gt" (.vStr s) (.vStr t) = .ok (decide (s > t))) ∧
    (∀ v w : Value, (isNum v && isNum w) = false → (isStr v && isStr w) = false →
      applyOperator "$gt" v w = .ok false) ∧
    (∀ a b : Int, applyOperator "$gte" (.vNum a) (.vNum b) = .ok (decide (a ≥ b))) ∧
    (∀ s t : String, applyOperator "$gte" (.vStr s) (.vStr t) = .ok (decide (s ≥ t))) ∧
    (∀ v w : Value, (isNum v && isNum w) = false → (isStr v && isStr w) = false →
      applyOperator "$gte" v w = .ok false) ∧
    (∀ a b : Int, applyOperator "$lt" (.vNum a) (.vNum b) = .ok (decide (a < b))) ∧
    (∀ s t : String, applyOperator "$lt" (.vStr s) (.vStr t) = .ok (decide (s < t))) ∧
    (∀ v w : Value, (isNum v && isNum w) = false → (isStr v && isStr w) = false →
      applyOperator "$lt" v w = .ok false) ∧
    (∀ a b : Int, applyOperator "$lte" (.vNum a) (.vNum b) = .ok (decide (a ≤ b))) ∧
    (∀ s t : String, applyOperator "$lte" (.vStr s) (.vStr t) = .ok (decide (s ≤ t))) ∧
    (∀ v w : Value, (isNum v && isNum w) = false → (isStr v && isStr w) = false →
      applyOperator "$lte" v w = .ok false) := by
  refine ⟨fun a b => rfl, fun s t => rfl, ?_, fun a b => rfl, fun s t => rfl, ?_,
    fun a b => rfl, fun s t => rfl, ?_, fun a b => rfl, fun s t => rfl, ?_⟩ <;>
    · intro v w h1 h2
      cases v <;> cases w <;> first
        | rfl
        | (exfalso; simp [isNum] at h1; done)
        | (exfalso; simp [isStr] at h2; done)

/-- Witness for C7: a sample ill-typed pairing for each comparison operator
evaluates to `.ok false`. -/
theorem C7_witness :
    applyOperator "$gt" (.vBool true) .vNull = .ok false ∧
    applyOperator "$gte" (.vStr "a") (.vNum 1) = .ok false ∧
    applyOperator "$lt" .vUndefinedVal (.vStr "x") = .ok false ∧
    applyOperator "$lte" (.vArr []) (.vArr []) = .ok false := by
  obtain ⟨-, -, h3, -, -, h6, -, -, h9, -, -, h12⟩ := C7_comparison_operators_typed_total
  exact ⟨h3 _ _ rfl rfl, h6 _ _ rfl rfl, h9 _ _ rfl rfl, h12 _ _ rfl rfl⟩

/-- **C5**: `countWithFilter` agrees with the length of
`applyFindOptions {filter}` (also when the filter contains an unknown
operator, in which case both fail identically), and counts the whole list
when the filter is omitted. -/
theorem C5_count_eq_find_length (docs : List Doc) (F : Filter) :
    countWithFilter docs (some F) =
      (applyFindOptions docs { filter := some F, offset := none, limit := none }).map
        List.length ∧
    countWithFilter docs none = .ok docs.length := by
  constructor
  · cases h : filterE (fun d => matchesFilter d F) docs <;>
      simp [countWithFilter, applyFindOptions, h, Except.map]
  · rfl

/-- **C10**: `onInsert` raises a UniqueConstraintError iff some unique index
holds a non-nullish document value that already maps to a non-empty id set;
and every index for a field on which the document's value is `undefined` or
`null` is left exactly as it was (no entry is created), so any number of
documents may share a nullish value on a unique field. -/
theorem C10_insert_unique_error_iff (collection : String) (doc : Doc)
    (idxs : List FieldIndex) :
    ((onInsertAux collection doc idxs).2.isSome = true ↔
      ∃ idx ∈ idxs, idx.unique = true ∧ isNullish (getField doc idx.field) = false ∧
        hasNonEmptyAt idx (getField doc idx.field) = true) ∧
    List.Forall₂ (fun idx idx1 => isNullish (getField doc idx.field) = true → idx1 = idx)
      idxs (onInsertAux collection doc idxs).1 := by
  induction idxs with
  | nil => exact ⟨by simp [onInsertAux], by simp [onInsertAux]⟩
  | cons idx rest ih =>
    obtain ⟨ih1, ih2⟩ := ih
    by_cases hn : isNullish (getField doc idx.field) = true
    · constructor
      · simp only [onInsertAux, hn, if_true, ih1]
        constructor
        · rintro ⟨i, hi, h⟩; exact ⟨i, List.mem_cons_of_mem _ hi, h⟩
        · rintro ⟨i, hi, h⟩
          rcases List.mem_cons.1 hi with rfl | hi
          · rw [hn] at h; exact absurd h.2.1 (by simp)
          · exact ⟨i, hi, h⟩
      · simp only [onInsertAux, hn, if_true]
        exact List.Forall₂.cons (fun _ => rfl) ih2
    · replace hn : isNullish (getField doc idx.field) = false := by
        simpa using hn
      by_cases hv : (idx.unique && hasNonEmptyAt idx (getField doc idx.field)) = true
      · constructor
        · simp only [onInsertAux, hn, Bool.false_eq_true, if_false, hv, if_true]
          simp only [Option.isSome_some, true_iff]
          have hv2 : idx.unique = true ∧ hasNonEmptyAt idx (getField doc idx.field) = true := by
            simpa using hv
          exact ⟨idx, List.mem_cons_self _ _, hv2.1, hn, hv2.2⟩
        · simp only [onInsertAux, hn, Bool.false_eq_true, if_false, hv, if_true]
          exact List.Forall₂.cons (fun _ => rfl)
            (List.forall₂_same.2 (fun x _ _ => rfl))
      · replace hv : (idx.unique && hasNonEmptyAt idx (getField doc idx.field)) = false := by
          simpa using hv
        constructor
        · simp only [onInsertAux, hn, Bool.false_eq_true, if_false, hv, ih1]
          constructor
          · rintro ⟨i, hi, h⟩; exact ⟨i, List.mem_cons_of_mem _ hi, h⟩
          · rintro ⟨i, hi, h⟩
            rcases List.mem_cons.1 hi with rfl | hi
            · rw [h.1, h.2.2] at hv; simp at hv
            · exact ⟨i, hi, h⟩
        · simp only [onInsertAux, hn, Bool.false_eq_true, if_false, hv]
          exact List.Forall₂.cons (fun h => absurd h (by simp [hn])) ih2

/-! ### Object field lemmas (for the merge semantics of `update`) -/

theorem getField_cons (k : String) (v : Value) (rest : Doc) (f : String) :
    getField ((k, v) :: rest) f = if k == f then v else getField rest f := by
  by_cases h : k = f
  · subst h
    have hf : ((k, v) :: rest).find? (fun p => p.1 == k) = some (k, v) :=
      List.find?_cons_of_pos _ (by simp)
    simp [getField, hf]
  · have hf : ((k, v) :: rest).find? (fun p => p.1 == f) = rest.find? (fun p => p.1 == f) :=
      List.find?_cons_of_neg _ (by simpa using h)
    simp [getField, hf, h]

theorem hasField_cons (k : String) (v : Value) (rest : Doc) (f : String) :
    hasField ((k, v) :: rest) f = (k == f || hasField rest f) := by
  by_cases h : k = f
  · subst h
    have hf : ((k, v) :: rest).find? (fun p => p.1 == k) = some (k, v) :=
      List.find?_cons_of_pos _ (by simp)
    simp [hasField, hf]
  · have hf : ((k, v) :: rest).find? (fun p => p.1 == f) = rest.find? (fun p => p.1 == f) :=
      List.find?_cons_of_neg _ (by simpa using h)
    simp [hasField, hf, h]

theorem hasField_iff_mem (d : Doc) (f : String) :
    hasField d f = true ↔ f ∈ d.map Prod.fst := by
  induction d with
  | nil => simp [hasField]
  | cons p rest ih =>
    obtain ⟨k, v⟩ := p
    by_cases h : k = f
    · subst h; simp [hasField_cons]
    · simp [hasField_cons, h, ih, Ne.symm h]

theorem getField_setField_self (d : Doc) (k : String) (v : Value) :
    getField (setField d k v) k = v := by
  induction d with
  | nil => simp [setField, getField_cons]
  | cons p rest ih =>
    obtain ⟨k1, v1⟩ := p
    by_cases h : k1 == k
    · simp [setField, h, getField_cons]
    · simp [setField, h, getField_cons, ih]

theorem getField_setField_other (d : Doc) (k : String) (v : Value) (f : String)
    (h : k ≠ f) : getField (setField d k v) f = getField d f := by
  induction d with
  | nil => simp [setField, getField_cons, getField, h]
  | cons p rest ih =>
    obtain ⟨k1, v1⟩ := p
    by_cases h1 : k1 == k
    · have hk1 : k1 = k := by simpa using h1
      simp [setField, h1, getField_cons, hk1, h]
    · simp [setField, h1, getField_cons, ih]

/-- The field-by-field content of the JS spread `{ ...old, ...data }`
(`data` itself has no duplicate keys, being a JS object). -/
theorem getField_mergeFold (data : Doc) (hnd : (data.map Prod.fst).Nodup) :
    ∀ (old : Doc) (f : String),
      getField (data.foldl (fun d p => setField d p.1 p.2) old) f =
        if hasField data f then getField data f else getField old f := by
  induction data with
  | nil => intro old f; simp [hasField]
  | cons p rest ih =>
    obtain ⟨k, v⟩ := p
    simp only [List.map_cons, List.nodup_cons] at hnd
    intro old f
    rw [List.foldl_cons, ih hnd.2]
    by_cases hkf : k = f
    · subst hkf
      have hrest : hasField rest k = false := by
        rw [Bool.eq_false_iff]
        intro hc
        exact hnd.1 ((hasField_iff_mem rest k).1 hc)
      simp [hrest, hasField_cons, getField_cons, getField_setField_self]
    · simp [hasField_cons, getField_cons, hkf, Ne.symm hkf,
        getField_setField_other _ _ _ _ hkf]

/-- **C6**: `update(collection, id, partialData)` on an existing collection
returns `null` and leaves the whole state untouched when no document has the
id; otherwise (when the call returns a document) the result is the old
document with exactly the fields of `partialData` overwritten — every other
field keeps its old value, and the result's `id` is the old document's `id`
even when `partialData` carries a different `id`. -/
theorem C6_update_merge (a : AdapterState) (collection id : String) (data : Doc)
    (hc : engineHasCollection a.engine collection = true)
    (hnd : (data.map Prod.fst).Nodup) :
    (((engineGetCollectionDocs a.engine collection).findIdx?
        (fun d => veq (getField d "id") (.vStr id)) = none) →
      adapterUpdate a collection id data = (a, .ok none)) ∧
    (∀ i oldDoc,
      (engineGetCollectionDocs a.engine collection).findIdx?
        (fun d => veq (getField d "id") (.vStr id)) = some i →
      (engineGetCollectionDocs a.engine collection)[i]? = some oldDoc →
      ∀ newDoc, (adapterUpdate a collection id data).2 = .ok (some newDoc) →
        ∀ f, getField newDoc f =
          if f = "id" then getField oldDoc "id"
          else if hasField data f then getField data f else getField oldDoc f) := by
  constructor
  · intro hfind
    simp [adapterUpdate, hc, hfind]
  · intro i oldDoc hfind hget newDoc hok f
    rw [adapterUpdate] at hok
    simp only [hc, Bool.not_true, Bool.false_eq_true, if_false, hfind, hget] at hok
    rcases he : (indexerOnUpdate a.indexes collection oldDoc
        (setField (data.foldl (fun d p => setField d p.1 p.2) oldDoc) "id"
          (getField oldDoc "id"))).2 with _ | u
    · rw [he] at hok
      simp only [Except.ok.injEq, Option.some.injEq] at hok
      subst hok
      by_cases hf : f = "id"
      · subst hf
        simp [getField_setField_self]
      · rw [if_neg hf, getField_setField_other _ _ _ _ (Ne.symm hf),
          getField_mergeFold data hnd oldDoc f]
    · rw [he] at hok
      simp at hok

/-- Witness for C6: updating document 1 with `{name: "Ann", id: "zzz"}`
keeps `id = "1"` and `email = "a"` and overwrites `name`. -/
theorem C6_witness :
    (adapterUpdate stateEmails "users" "1" [("name", .vStr "Ann"), ("id", .vStr "zzz")]).2 =
      .ok (some [("id", .vStr "1"), ("email", .vStr "a"), ("name", .vStr "Ann")]) ∧
    getField [("id", Value.vStr "1"), ("email", Value.vStr "a"), ("name", Value.vStr "Ann")]
        "id" =
      (if "id" = "id" then getField docEmailA "id"
       else if hasField [("name", Value.vStr "Ann"), ("id", Value.vStr "zzz")] "id" then
         getField [("name", Value.vStr "Ann"), ("id", Value.vStr "zzz")] "id"
       else getField docEmailA "id") ∧
    getField [("id", Value.vStr "1"), ("email", Value.vStr "a"), ("name", Value.vStr "Ann")]
        "name" =
      (if "name" = "id" then getField docEmailA "id"
       else if hasField [("name", Value.vStr "Ann"), ("id", Value.vStr "zzz")] "name" then
         getField [("name", Value.vStr "Ann"), ("id", Value.vStr "zzz")] "name"
       else getField docEmailA "name") ∧
    getField [("id", Value.vStr "1"), ("email", Value.vStr "a"), ("name", Value.vStr "Ann")]
        "email" =
      (if "email" = "id" then getField docEmailA "id"
       else if hasField [("name", Value.vStr "Ann"), ("id", Value.vStr "zzz")] "email" then
         getField [("name", Value.vStr "Ann"), ("id", Value.vStr "zzz")] "email"
       else getField docEmailA "email") := by
  have h := (C6_update_merge stateEmails "users" "1"
    [("name", .vStr "Ann"), ("id", .vStr "zzz")] rfl (by decide)).2 0 docEmailA rfl rfl
    [("id", .vStr "1"), ("email", .vStr "a"), ("name", .vStr "Ann")] rfl
  exact ⟨rfl, h "id", h "name", h "email"⟩

/-! ### `$like` matcher correctness -/

theorem anySuffix_iff (f : List Char → Bool) (val : List Char) :
    anySuffix f val = true ↔
      ∃ v1 v2, val = v1 ++ v2 ∧ (∀ c ∈ v1, isLineTerm c = false) ∧ f v2 = true := by
  induction val with
  | nil =>
    simp only [anySuffix]
    constructor
    · intro h; exact ⟨[], [], rfl, by simp, h⟩
    · rintro ⟨v1, v2, he, -, hf⟩
      obtain ⟨rfl, rfl⟩ := List.append_eq_nil.1 he.symm
      exact hf
  | cons c vs ih =>
    simp only [anySuffix, Bool.or_eq_true, Bool.and_eq_true, Bool.not_eq_true', ih]
    constructor
    · rintro (h | ⟨hlt, v1, v2, rfl, hall, hf⟩)
      · exact ⟨[], c :: vs, rfl, by simp, h⟩
      · refine ⟨c :: v1, v2, rfl, ?_, hf⟩
        intro x hx
        rcases List.mem_cons.1 hx with rfl | hx
        · exact hlt
        · exact hall x hx
    · rintro ⟨v1, v2, he, hall, hf⟩
      cases v1 with
      | nil =>
        simp only [List.nil_append] at he
        subst he
        exact Or.inl hf
      | cons d w1 =>
        simp only [List.cons_append, List.cons.injEq] at he
        obtain ⟨rfl, he2⟩ := he
        exact Or.inr ⟨hall c (List.mem_cons_self _ _), w1, v2, he2,
          fun x hx => hall x (List.mem_cons_of_mem _ hx), hf⟩

/-! Equation lemmas for the matcher and the spec language. -/

theorem likeMatches_pct (ps : List Char) (val : List Char) :
    likeMatches ('%' :: ps) val = anySuffix (likeMatches ps) val := rfl

theorem likeMatches_underscore_nil (ps : List Char) :
    likeMatches ('_' :: ps) [] = false := rfl

theorem likeMatches_underscore_cons (ps : List Char) (c : Char) (vs : List Char) :
    likeMatches ('_' :: ps) (c :: vs) = (!isLineTerm c && likeMatches ps vs) := rfl

theorem likeMatches_char_nil (p : Char) (ps : List Char) (hp : p ≠ '%') (hu : p ≠ '_') :
    likeMatches (p :: ps) [] = false := by
  simp [likeMatches, hp, hu]

theorem likeMatches_char_cons (p : Char) (ps : List Char) (c : Char) (vs : List Char)
    (hp : p ≠ '%') (hu : p ≠ '_') :
    likeMatches (p :: ps) (c :: vs) = ((p.toLower == c.toLower) && likeMatches ps vs) := by
  simp [likeMatches, hp, hu]

theorem likeSem_pct (ps : List Char) (val : List Char) :
    LikeSem ('%' :: ps) val ↔
      ∃ v1 v2, val = v1 ++ v2 ∧ (∀ c ∈ v1, isLineTerm c = false) ∧ LikeSem ps v2 := Iff.rfl

theorem likeSem_underscore (ps : List Char) (val : List Char) :
    LikeSem ('_' :: ps) val ↔
      ∃ c vs, val = c :: vs ∧ isLineTerm c = false ∧ LikeSem ps vs := Iff.rfl

theorem likeSem_char (p : Char) (ps : List Char) (val : List Char)
    (hp : p ≠ '%') (hu : p ≠ '_') :
    LikeSem (p :: ps) val ↔
      ∃ c vs, val = c :: vs ∧ p.toLower = c.toLower ∧ LikeSem ps vs := by
  simp only [LikeSem]
  rw [if_neg hp, if_neg hu]

/-- The `$like` matcher recognizes exactly the language the spec describes
(`%` = any run, `_` = exactly one character, other characters match
case-insensitively, whole-value anchored). -/
theorem likeMatches_iff_likeSem (pat : List Char) :
    ∀ val, likeMatches pat val = true ↔ LikeSem pat val := by
  induction pat with
  | nil =>
    intro val
    cases val <;> simp [likeMatches, LikeSem]
  | cons p ps ih =>
    intro val
    by_cases hp : p = '%'
    · subst hp
      rw [likeMatches_pct, anySuffix_iff, likeSem_pct]
      constructor
      · rintro ⟨v1, v2, rfl, hall, hf⟩; exact ⟨v1, v2, rfl, hall, (ih v2).1 hf⟩
      · rintro ⟨v1, v2, rfl, hall, hs⟩; exact ⟨v1, v2, rfl, hall, (ih v2).2 hs⟩
    · by_cases hu : p = '_'
      · subst hu
        cases val with
        | nil =>
          rw [likeMatches_underscore_nil, likeSem_underscore]
          simp
        | cons c vs =>
          rw [likeMatches_underscore_cons, likeSem_underscore]
          cases hlt : isLineTerm c with
          | false =>
            simp only [hlt, Bool.not_false, Bool.true_and, ih vs]
            constructor
            · intro h; exact ⟨c, vs, rfl, hlt, h⟩
            · rintro ⟨d, ws, he, -, hs⟩
              injection he with h1 h2
              subst h2
              exact hs
          | true =>
            simp only [hlt, Bool.not_true, Bool.false_and]
            constructor
            · intro h; exact absurd h (by simp)
            · rintro ⟨d, ws, he, hltd, hs⟩
              injection he with h1 h2
              subst h1
              rw [hlt] at hltd
              exact absurd hltd (by simp)
      · cases val with
        | nil =>
          rw [likeMatches_char_nil p ps hp hu]
          rw [likeSem_char p ps [] hp hu]
          simp
        | cons c vs =>
          rw [likeMatches_char_cons p ps c vs hp hu]
          rw [likeSem_char p ps (c :: vs) hp hu]
          simp only [Bool.and_eq_true, beq_iff_eq, ih vs]
          constructor
          · rintro ⟨hl, hs⟩; exact ⟨c, vs, rfl, hl, hs⟩
          · rintro ⟨d, ws, he, hl, hs⟩
            injection he with h1 h2
            subst h1
            subst h2
            exact ⟨hl, hs⟩

/-- **C8** (counterexample to the original claim): under the claim's
reading, `%` matches ANY run of characters, so the fully anchored pattern
`"%"` matches the value `"a\nb"` (witnessed here in `LikeSemAnyRun`); but
the program builds its regex without the dotAll flag, so `.*` cannot cross
the newline and `$like` returns `false` on exactly this input. -/
theorem C8_counterexample :
    applyOperator "$like" (.vStr "a\nb") (.vStr "%") = .ok false ∧
    LikeSemAnyRun "%".data "a\nb".data :=
  ⟨rfl, "a\nb".data, [], (List.append_nil _).symm, rfl⟩

/-- **C8** (amended): `$like` on two strings is exactly the anchored,
case-insensitive SQL pattern language in which `%` matches any run of
NON-LINE-TERMINATOR characters and `_` exactly one non-line-terminator
character — the restriction the source's dotAll-less regex imposes — stated
for ASCII pattern and value (where Lean's `toLower` folding coincides with
the JS `i`-flag canonicalization); a non-string operand on either side gives
`false`; and on the spec's examples, `"%@example.com"` matches
`"alice@example.com"` (also in upper case) but not `"alice@test.org"`, and
the pattern `"alice"` does not match the longer value `"alice smith"` (no
substring match). -/
theorem C8_like_semantics :
    (∀ v p : String, (∀ c ∈ p.data, c.toNat < 128) → (∀ c ∈ v.data, c.toNat < 128) →
      (applyOperator "$like" (.vStr v) (.vStr p) = .ok true ↔ LikeSem p.data v.data)) ∧
    (∀ val op : Value, (isStr val && isStr op) = false →
      applyOperator "$like" val op = .ok false) ∧
    applyOperator "$like" (.vStr "alice@example.com") (.vStr "%@example.com") = .ok true ∧
    applyOperator "$like" (.vStr "ALICE@EXAMPLE.COM") (.vStr "%@example.com") = .ok true ∧
    applyOperator "$like" (.vStr "alice@test.org") (.vStr "%@example.com") = .ok false ∧
    applyOperator "$like" (.vStr "alice smith") (.vStr "alice") = .ok false := by
  refine ⟨?_, ?_, rfl, rfl, rfl, rfl⟩
  · intro v p hp hv
    have h : applyOperator "$like" (.vStr v) (.vStr p) = .ok (likeMatches p.data v.data) := rfl
    rw [h]
    simp only [Except.ok.injEq]
    exact likeMatches_iff_likeSem p.data v.data
  · intro val op h
    cases val <;> cases op <;> first
      | rfl
      | (exfalso; simp [isStr] at h; done)

/-! ### Lemmas for the belongsTo resolver -/

theorem veq_refl (a : Value) : veq a a = true := (veq_eq a a).2 rfl

theorem any_veq_iff_mem (l : List Value) (x : Value) :
    (l.any fun y => veq y x) = true ↔ x ∈ l := by
  simp only [List.any_eq_true, veq_eq]
  constructor
  · rintro ⟨y, hy, rfl⟩; exact hy
  · intro h; exact ⟨x, h, rfl⟩

/-- `filter` with an error-free predicate is `List.filter`. -/
theorem filterE_ok (p : Doc → Except String Bool) (q : Doc → Bool)
    (h : ∀ d, p d = .ok (q d)) :
    ∀ l : List Doc, filterE p l = .ok (l.filter q) := by
  intro l
  induction l with
  | nil => rfl
  | cons d ds ih =>
    simp only [filterE, h d, ih, List.filter_cons]
    cases hq : q d <;> rfl

/-- Evaluating the one-field `$in` filter never fails and is the `opIn` test. -/
theorem matchesFilter_in (f : String) (vals : List Value) (d : Doc) :
    matchesFilter d [(f, .vDoc [("$in", .vArr vals)])] =
      .ok (opIn (getField d f) (.vArr vals)) := by
  have h1 : matchesCondition (getField d f) (.vDoc [("$in", .vArr vals)]) =
      (if opIn (getField d f) (.vArr vals) then Except.ok true else Except.ok false) := rfl
  have h2 : matchesFilter d [(f, .vDoc [("$in", .vArr vals)])] =
      (matchesCondition (getField d f) (.vDoc [("$in", .vArr vals)]) >>=
        (fun b => if b then matchesFilter d [] else pure false)) := rfl
  rw [h2, h1]
  cases hb : opIn (getField d f) (.vArr vals) <;> rfl

theorem vmapLookup_vmapSet_self {α : Type} (m : List (Value × α)) (k : Value) (v : α) :
    vmapLookup (vmapSet m k v) k = some v := by
  induction m with
  | nil => simp [vmapSet, vmapLookup, List.find?, veq_refl]
  | cons p rest ih =>
    obtain ⟨k1, v1⟩ := p
    by_cases h : veq k1 k = true
    · simp [vmapSet, h, vmapLookup, List.find?]
    · simp only [vmapSet, h, Bool.false_eq_true, if_false]
      simp only [vmapLookup, List.find?] at ih ⊢
      rw [Bool.eq_false_iff.2 (fun hc => absurd hc h) ]
      exact ih

theorem vmapLookup_vmapSet_other {α : Type} (m : List (Value × α)) (k : Value) (v : α)
    (k' : Value) (h : k' ≠ k) :
    vmapLookup (vmapSet m k v) k' = vmapLookup m k' := by
  induction m with
  | nil =>
    have hkk : veq k k' = false := by
      rw [veq_eq_decide]
      exact decide_eq_false (fun hc => h hc.symm)
    simp [vmapSet, vmapLookup, List.find?, hkk]
  | cons p rest ih =>
    obtain ⟨k1, v1⟩ := p
    by_cases h1 : veq k1 k = true
    · have hk1 : k1 = k := (veq_eq _ _).1 h1
      subst hk1
      have hkk : veq k1 k' = false := by
        rw [veq_eq_decide]
        exact decide_eq_false (fun hc => h hc.symm)
      simp [vmapSet, veq_refl, vmapLookup, List.find?, hkk]
    · simp only [vmapSet, h1, Bool.false_eq_true, if_false]
      simp only [vmapLookup, List.find?] at ih ⊢
      cases h2 : veq k1 k' <;> simp [h2, ih]

/-- Looking up in the id → document map built by `populate`'s fold, when ids
are distinct, finds exactly the first (= only) document with that id. -/
theorem lookup_buildMap_go :
    ∀ (l : List Doc) (m : List (Value × Doc)) (k : Value),
      (∀ r ∈ l, vmapLookup m (getField r "id") = none) →
      (l.map (fun r => getField r "id")).Nodup →
      vmapLookup (l.foldl (fun m r => vmapSet m (getField r "id") r) m) k =
        (match l.find? (fun r => veq (getField r "id") k) with
         | some r => some r
         | none => vmapLookup m k) := by
  intro l
  induction l with
  | nil => intro m k _ _; simp [List.find?]
  | cons r rest ih =>
    intro m k hfresh hnd
    simp only [List.map_cons, List.nodup_cons] at hnd
    rw [List.foldl_cons]
    rw [ih (vmapSet m (getField r "id") r) k ?fresh hnd.2]
    case fresh =>
      intro r1 hr1
      have hne : getField r1 "id" ≠ getField r "id" := by
        intro hc
        exact hnd.1 (hc ▸ List.mem_map_of_mem _ hr1)
      rw [vmapLookup_vmapSet_other _ _ _ _ hne]
      exact hfresh r1 (List.mem_cons_of_mem _ hr1)
    by_cases hq : veq (getField r "id") k = true
    · have hk : getField r "id" = k := (veq_eq _ _).1 hq
      have hrest : rest.find? (fun r1 => veq (getField r1 "id") k) = none := by
        rw [List.find?_eq_none]
        intro r1 hr1 hc
        have he1 : getField r1 "id" = k := (veq_eq _ _).1 hc
        exact hnd.1 ((hk.trans he1.symm) ▸ List.mem_map_of_mem _ hr1)
      have hfind : (r :: rest).find? (fun r1 => veq (getField r1 "id") k) = some r :=
        @List.find?_cons_of_pos _ (fun r1 => veq (getField r1 "id") k) r rest hq
      simp only [hfind, hrest]
      rw [hk]
      exact vmapLookup_vmapSet_self m k r
    · have hne : getField r "id" ≠ k := fun hc => hq (by rw [hc]; exact veq_refl k)
      have hfind : (r :: rest).find? (fun r1 => veq (getField r1 "id") k) =
          rest.find? (fun r1 => veq (getField r1 "id") k) :=
        @List.find?_cons_of_neg _ (fun r1 => veq (getField r1 "id") k) r rest (by simpa using hq)
      rw [hfind]
      cases hf : rest.find? (fun r1 => veq (getField r1 "id") k) with
      | some r1 => simp
      | none =>
        simp only []
        exact vmapLookup_vmapSet_other m _ r k (fun hc => hne hc.symm)

/-- When every hit of `q` passes the filter `pf`, filtering first does not
change the first hit. -/
theorem find?_filter_of_imp {α : Type} (l : List α) (pf q : α → Bool)
    (h : ∀ r, q r = true → pf r = true) :
    (l.filter pf).find? q = l.find? q := by
  induction l with
  | nil => rfl
  | cons a as ih =>
    by_cases hpf : pf a = true
    · rw [List.filter_cons_of_pos hpf]
      cases hq : q a
      · rw [List.find?_cons_of_neg _ (by simp [hq]), List.find?_cons_of_neg _ (by simp [hq])]
        exact ih
      · rw [List.find?_cons_of_pos _ hq, List.find?_cons_of_pos _ hq]
    · have hq : q a = false := by
        cases hqa : q a
        · rfl
        · exact absurd (h a hqa) hpf
      rw [List.filter_cons_of_neg (by simp [hpf]), List.find?_cons_of_neg _ (by simp [hq])]
      exact ih

/-- `[...new Set(xs)]` deduplicates, keeps exactly the members of `xs`. -/
theorem dedupVeq_go :
    ∀ (xs acc : List Value), acc.Nodup →
      ((xs.foldl (fun acc x =>
          if acc.any (fun y => veq y x) then acc else acc ++ [x]) acc).Nodup ∧
       (∀ v, v ∈ xs.foldl (fun acc x =>
          if acc.any (fun y => veq y x) then acc else acc ++ [x]) acc ↔
            v ∈ acc ∨ v ∈ xs)) := by
  intro xs
  induction xs with
  | nil => intro acc h; simpa using h
  | cons x rest ih =>
    intro acc hacc
    rw [List.foldl_cons]
    by_cases hmem : (acc.any fun y => veq y x) = true
    · have hx : x ∈ acc := (any_veq_iff_mem acc x).1 hmem
      rw [if_pos hmem]
      obtain ⟨h1, h2⟩ := ih acc hacc
      refine ⟨h1, fun v => ?_⟩
      rw [h2 v]
      constructor
      · rintro (h | h)
        · exact Or.inl h
        · exact Or.inr (List.mem_cons_of_mem _ h)
      · rintro (h | h)
        · exact Or.inl h
        · rcases List.mem_cons.1 h with rfl | h
          · exact Or.inl hx
          · exact Or.inr h
    · have hx : x ∉ acc := fun hc => hmem ((any_veq_iff_mem acc x).2 hc)
      rw [if_neg hmem]
      have hacc2 : (acc ++ [x]).Nodup := by
        simp [List.nodup_append, hacc, hx]
      obtain ⟨h1, h2⟩ := ih (acc ++ [x]) hacc2
      refine ⟨h1, fun v => ?_⟩
      rw [h2 v]
      simp only [List.mem_append, List.mem_singleton, List.mem_cons]
      tauto

theorem dedupVeq_nodup (xs : List Value) : (dedupVeq xs).Nodup :=
  (dedupVeq_go xs [] List.nodup_nil).1

theorem mem_dedupVeq (xs : List Value) (v : Value) : v ∈ dedupVeq xs ↔ v ∈ xs := by
  rw [dedupVeq, (dedupVeq_go xs [] List.nodup_nil).2 v]
  simp

/-- `find` with a one-field `$in` filter returns exactly the documents whose
field value is a member of the operand list. -/
theorem adapterFind_in (a : AdapterState) (c f : String) (vals : List Value)
    (hc : engineHasCollection a.engine c = true) :
    adapterFind a c (inQuery f vals) =
      .ok ((engineGetCollectionDocs a.engine c).filter
        (fun d => opIn (getField d f) (.vArr vals))) := by
  have hfe := filterE_ok (fun d => matchesFilter d [(f, .vDoc [("$in", .vArr vals)])])
    (fun d => opIn (getField d f) (.vArr vals)) (fun d => matchesFilter_in f vals d)
    (engineGetCollectionDocs a.engine c)
  have h0 : applyFindOptions (engineGetCollectionDocs a.engine c) (inQuery f vals) =
      (filterE (fun d => matchesFilter d [(f, .vDoc [("$in", .vArr vals)])])
        (engineGetCollectionDocs a.engine c) >>= fun r => pure r) := rfl
  have hafo : applyFindOptions (engineGetCollectionDocs a.engine c) (inQuery f vals) =
      .ok ((engineGetCollectionDocs a.engine c).filter
        (fun d => opIn (getField d f) (.vArr vals))) := by
    rw [h0, hfe]; rfl
  rw [adapterFind, hc]
  simp only [Bool.not_true, Bool.false_eq_true, if_false, hafo]

/-- **C9**: the belongsTo arm of `populate` attaches to every parent exactly
the related document whose id equals the parent's own foreign-key value (or
`null` when there is none, or when the parent's foreign-key value is not
truthy — for string keys, truthy = non-empty); it issues no query at all when
no parent carries a truthy foreign-key value, and otherwise exactly one
batched query whose `$in` list holds precisely the distinct truthy
foreign-key values present on the parents. -/
theorem C9_belongsTo_batched (a : AdapterState) (parents : List Doc)
    (relationName foreignKey relatedCollection : String)
    (hcoll : engineHasCollection a.engine relatedCollection = true)
    (hids : ((engineGetCollectionDocs a.engine relatedCollection).map
        (fun r => getField r "id")).Nodup) :
    ∃ qs, populateBelongsTo a parents relationName foreignKey relatedCollection =
        .ok (parents.map (fun p => setField p relationName
          (belongsToExpected (engineGetCollectionDocs a.engine relatedCollection)
            foreignKey p)), qs) ∧
      ((∀ p ∈ parents, truthy (getField p foreignKey) = false) → qs = []) ∧
      (∀ q ∈ qs, ∃ vals, q = [("id", Value.vDoc [("$in", Value.vArr vals)])] ∧
        vals.Nodup ∧
        (∀ v, v ∈ vals ↔ (truthy v = true ∧
          v ∈ parents.map (fun d => getField d foreignKey)))) ∧
      qs.length ≤ 1 ∧
      ((∃ p ∈ parents, truthy (getField p foreignKey) = true) → qs.length = 1) := by
  classical
  set relColl := engineGetCollectionDocs a.engine relatedCollection with hrelColl
  set fkValues := dedupVeq ((parents.map (fun d => getField d foreignKey)).filter truthy)
    with hfkValues
  have hmemfk : ∀ v, v ∈ fkValues ↔ (truthy v = true ∧
      v ∈ parents.map (fun d => getField d foreignKey)) := by
    intro v
    rw [hfkValues, mem_dedupVeq, List.mem_filter]
    exact ⟨fun h => ⟨h.2, h.1⟩, fun h => ⟨h.2, h.1⟩⟩
  by_cases hempty : fkValues = []
  · -- no truthy foreign-key value: every parent gets null, no query
    have hfalsy : ∀ p ∈ parents, truthy (getField p foreignKey) = false := by
      intro p hp
      cases ht : truthy (getField p foreignKey)
      · rfl
      · exfalso
        have : getField p foreignKey ∈ fkValues :=
          (hmemfk _).2 ⟨ht, List.mem_map_of_mem _ hp⟩
        rw [hempty] at this
        exact absurd this (List.not_mem_nil _)
    have hbranch : populateBelongsTo a parents relationName foreignKey relatedCollection =
        .ok (parents.map (fun d => setField d relationName .vNull), []) := by
      rw [populateBelongsTo]
      simp only [← hfkValues]
      rw [hempty]
      rfl
    refine ⟨[], ?_, fun _ => rfl, by simp, by simp, ?_⟩
    · rw [hbranch]
      have : parents.map (fun d => setField d relationName .vNull) =
          parents.map (fun p => setField p relationName
            (belongsToExpected relColl foreignKey p)) := by
        apply List.map_congr_left
        intro p hp
        rw [belongsToExpected, hfalsy p hp]
        simp
      rw [this]
    · rintro ⟨p, hp, ht⟩
      rw [hfalsy p hp] at ht
      exact absurd ht (by simp)
  · -- at least one truthy foreign-key value: one batched query
    have hlen : (fkValues.length == 0) = false := by
      cases hfk : fkValues with
      | nil => exact absurd hfk hempty
      | cons v vs => rfl
    have hfiltered := adapterFind_in a relatedCollection "id" fkValues hcoll
    set filtered := relColl.filter (fun d => opIn (getField d "id") (.vArr fkValues))
      with hfiltEq
    have hndf : (filtered.map (fun r => getField r "id")).Nodup :=
      hids.sublist (List.Sublist.map _ (List.filter_sublist _))
    have hlook : ∀ k, vmapLookup
        (filtered.foldl (fun m r => vmapSet m (getField r "id") r) []) k =
        filtered.find? (fun r => veq (getField r "id") k) := by
      intro k
      rw [lookup_buildMap_go filtered [] k (fun r _ => rfl) hndf]
      cases hf : filtered.find? (fun r => veq (getField r "id") k) <;> rfl
    have hbranch : populateBelongsTo a parents relationName foreignKey relatedCollection =
        .ok (parents.map (fun d => setField d relationName
          (match vmapLookup (filtered.foldl (fun m r => vmapSet m (getField r "id") r) [])
              (getField d foreignKey) with
           | some r => .vDoc r
           | none => .vNull)),
          [[("id", Value.vDoc [("$in", Value.vArr fkValues)])]]) := by
      rw [populateBelongsTo]
      simp only [← hfkValues, hlen, Bool.false_eq_true, if_false]
      rw [hfiltered]
      rfl
    refine ⟨[[("id", Value.vDoc [("$in", Value.vArr fkValues)])]], ?_, ?_, ?_, by simp, fun _ => rfl⟩
    · rw [hbranch]
      have hout : ∀ p ∈ parents,
          (match vmapLookup (filtered.foldl (fun m r => vmapSet m (getField r "id") r) [])
              (getField p foreignKey) with
           | some r => Value.vDoc r
           | none => Value.vNull) = belongsToExpected relColl foreignKey p := by
        intro p hp
        rw [hlook]
        cases ht : truthy (getField p foreignKey)
        · -- falsy parent: nothing in the filtered set can have its id
          have hnone : filtered.find?
              (fun r => veq (getField r "id") (getField p foreignKey)) = none := by
            rw [List.find?_eq_none]
            intro r hr hc
            have hid : getField r "id" = getField p foreignKey := (veq_eq _ _).1 hc
            have hpf := (List.mem_filter.1 (hfiltEq ▸ hr)).2
            rw [opIn] at hpf
            have hmem : getField r "id" ∈ fkValues := (any_veq_iff_mem _ _).1 hpf
            have := ((hmemfk _).1 (hid ▸ hmem)).1
            rw [ht] at this
            exact absurd this (by simp)
          rw [hnone, belongsToExpected, ht]
          simp
        · -- truthy parent: the filtered find agrees with the full find
          have hmem : getField p foreignKey ∈ fkValues :=
            (hmemfk _).2 ⟨ht, List.mem_map_of_mem _ hp⟩
          have himp : ∀ r : Doc, (veq (getField r "id") (getField p foreignKey)) = true →
              (opIn (getField r "id") (.vArr fkValues)) = true := by
            intro r hr
            have hid : getField r "id" = getField p foreignKey := (veq_eq _ _).1 hr
            rw [opIn]
            exact (any_veq_iff_mem _ _).2 (hid ▸ hmem)
          have hff := find?_filter_of_imp relColl
            (fun d => opIn (getField d "id") (.vArr fkValues))
            (fun r => veq (getField r "id") (getField p foreignKey)) himp
          rw [hfiltEq, hff, belongsToExpected, ht]
          simp
      have : parents.map (fun d => setField d relationName
          (match vmapLookup (filtered.foldl (fun m r => vmapSet m (getField r "id") r) [])
              (getField d foreignKey) with
           | some r => Value.vDoc r
           | none => Value.vNull)) =
          parents.map (fun p => setField p relationName
            (belongsToExpected relColl foreignKey p)) := by
        apply List.map_congr_left
        intro p hp
        rw [hout p hp]
      rw [this]
    · intro hfalsy
      exfalso
      obtain ⟨v, hv⟩ := List.exists_mem_of_ne_nil _ hempty
      obtain ⟨ht, hvm⟩ := (hmemfk v).1 hv
      obtain ⟨p, hp, rfl⟩ := List.mem_map.1 hvm
      rw [hfalsy p hp] at ht
      exact absurd ht (by simp)
    · intro q hq
      rw [List.mem_singleton] at hq
      subst hq
      exact ⟨fkValues, rfl, dedupVeq_nodup _, hmemfk⟩

/-- Witness for C9: one post referencing the lone author and one post without
a foreign key — the first gets the author, the second gets `null`, and one
query with exactly `["a1"]` is issued. -/
theorem C9_witness :
    ∃ qs, populateBelongsTo stateAuthors [docPostWithAuthor, docPostNoAuthor] "author"
        "authorId" "authors" =
        .ok ([docPostWithAuthor, docPostNoAuthor].map (fun p => setField p "author"
          (belongsToExpected (engineGetCollectionDocs stateAuthors.engine "authors")
            "authorId" p)), qs) ∧
      ((∀ p ∈ [docPostWithAuthor, docPostNoAuthor],
          truthy (getField p "authorId") = false) → qs = []) ∧
      (∀ q ∈ qs, ∃ vals, q = [("id", Value.vDoc [("$in", Value.vArr vals)])] ∧
        vals.Nodup ∧
        (∀ v, v ∈ vals ↔ (truthy v = true ∧
          v ∈ [docPostWithAuthor, docPostNoAuthor].map (fun d => getField d "authorId")))) ∧
      qs.length ≤ 1 ∧
      ((∃ p ∈ [docPostWithAuthor, docPostNoAuthor],
          truthy (getField p "authorId") = true) → qs.length = 1) :=
  C9_belongsTo_batched stateAuthors [docPostWithAuthor, docPostNoAuthor] "author"
    "authorId" "authors" rfl (by decide)

/-- Witness for C8: the amended language at an ASCII instance (pattern
`"a%"` accepts `"abc"`), and a non-string value makes `$like` return
`false`. -/
theorem C8_witness :
    LikeSem "a%".data "abc".data ∧
    applyOperator "$like" (.vNum 3) (.vStr "%") = .ok false :=
  ⟨(C8_like_semantics.1 "abc" "a%" (by decide) (by decide)).1 rfl,
   C8_like_semantics.2.1 (.vNum 3) (.vStr "%") rfl⟩

/-- Witness for C10: the error characterization at a concrete state — the
collision on unique field `b` is detected. -/
theorem C10_witness :
    (onInsertAux "users" docCollideB idxsTwoUnique).2.isSome = true :=
  (C10_insert_unique_error_iff "users" docCollideB idxsTwoUnique).1.2
    ⟨{ field := "b", unique := true, map := [(.vStr "y", [.vStr "d1"])] },
      by decide, by decide, by decide, by decide⟩

end Seedorm
